import Mathlib

/-!
Verification of the Celebrate-Failure browser app (src/script.js) against its
natural-language specification. The script's state model, command handlers,
tokenizer and utilities are shallowly embedded below; ambient effects
(DOM rendering, `localStorage`, `Math.random()`, the current date) are made
explicit as parameters or as components of a `Sys` record.
-/

set_option autoImplicit false

namespace CelebrateFailure

/-- A staged failure/lesson pair, as pushed by `commitCmd` (script.js line 128). -/
structure PendingItem where
  message : String
  lesson : String
deriving DecidableEq, Repr

/-- A committed failure entry, as built by `pushCmd` (script.js lines 141-145). -/
structure Entry where
  id : String
  date : String
  message : String
  lesson : String
deriving DecidableEq, Repr

/-- The aggregate application state (script.js lines 17-21). -/
structure State where
  pending : List PendingItem
  entries : List Entry
  mottos : List String
deriving DecidableEq, Repr

/-- The observable system: in-memory state, the persisted `localStorage` record
(`none` = absent), and the lines printed to the terminal screen. -/
structure Sys where
  state : State
  store : Option State
  screen : List String
deriving DecidableEq, Repr

/-- The single-quote character, written via its code point. -/
def squote : Char := Char.ofNat 39

/-- The JavaScript `\s` whitespace class used by the tokenizer regex
(script.js line 293): ASCII whitespace plus the Unicode space separators,
line/paragraph separators, and the BOM. -/
def jsWhitespace (c : Char) : Bool :=
  c = ' ' || c = '\t' || c = '\n' || c.toNat = 0x0B || c.toNat = 0x0C || c = '\r' ||
  c.toNat = 0xA0 || c.toNat = 0x1680 || (0x2000 ≤ c.toNat && c.toNat ≤ 0x200A) ||
  c.toNat = 0x2028 || c.toNat = 0x2029 || c.toNat = 0x202F || c.toNat = 0x205F ||
  c.toNat = 0x3000 || c.toNat = 0xFEFF

/-- JavaScript `String.prototype.trim`: strip the whitespace class (the same
class `\s` matches, plus line terminators, all covered by `jsWhitespace`) from
both ends. -/
def jsTrim (s : String) : String :=
  String.mk (((s.data.dropWhile jsWhitespace).reverse.dropWhile jsWhitespace).reverse)

/-- Scan for the first occurrence of `stop`; on success return the characters
before it and the characters after it. Models the regex fragment `([^"]*)"`
of script.js line 293: since the character class excludes the quote, the greedy
capture is exactly the run up to the first closing quote, and the whole
alternative fails when no closing quote exists. -/
def takeUntil (stop : Char) : List Char → Option (List Char × List Char)
  | [] => none
  | c :: cs =>
    if c = stop then some ([], cs)
    else
      match takeUntil stop cs with
      | some p => some (c :: p.1, p.2)
      | none => none

/-- Maximal run of non-whitespace characters at the head, with the remainder.
Models the regex alternative `(\S+)` of script.js line 293. -/
def takeRun : List Char → List Char × List Char
  | [] => ([], [])
  | c :: cs =>
    if jsWhitespace c then ([], c :: cs)
    else
      let p := takeRun cs
      (c :: p.1, p.2)

theorem takeUntil_length {stop : Char} {l : List Char} {p : List Char × List Char}
    (h : takeUntil stop l = some p) : p.2.length < l.length := by
  induction l generalizing p with
  | nil => simp [takeUntil] at h
  | cons c cs ih =>
    rw [takeUntil] at h
    split at h
    · cases h; simp
    · cases h' : takeUntil stop cs with
      | none => rw [h'] at h; cases h
      | some q =>
        rw [h'] at h
        cases h
        have := ih h'
        simp only [List.length_cons]
        omega

theorem takeRun_snd_length (l : List Char) : (takeRun l).2.length ≤ l.length := by
  induction l with
  | nil => simp [takeRun]
  | cons c cs ih =>
    rw [takeRun]
    split
    · simp
    · simp only [List.length_cons]
      omega

theorem takeRun_snd_length_cons {c : Char} {cs : List Char}
    (h : ¬ jsWhitespace c = true) :
    (takeRun (c :: cs)).2.length < (c :: cs).length := by
  rw [takeRun, if_neg h]
  have := takeRun_snd_length cs
  simp only [List.length_cons]
  omega

/-- One pass of the global regex `/"([^"]*)"|'([^']*)'|(\S+)/g` driven by
`exec` (script.js lines 291-298), translated to a left-to-right scan: no match
can begin at a whitespace character; at a non-whitespace character the ordered
alternation first tries a double-quoted run, then a single-quoted run, then a
maximal non-whitespace run (which is what an unmatched quote falls back to). -/
def tokenizeAux : List Char → List String
  | [] => []
  | c :: cs =>
    if hw : jsWhitespace c then tokenizeAux cs
    else if c = '"' then
      match hq : takeUntil '"' cs with
      | some p => String.mk p.1 :: tokenizeAux p.2
      | none => String.mk (takeRun (c :: cs)).1 :: tokenizeAux (takeRun (c :: cs)).2
    else if c = squote then
      match hq : takeUntil squote cs with
      | some p => String.mk p.1 :: tokenizeAux p.2
      | none => String.mk (takeRun (c :: cs)).1 :: tokenizeAux (takeRun (c :: cs)).2
    else
      String.mk (takeRun (c :: cs)).1 :: tokenizeAux (takeRun (c :: cs)).2
termination_by l => l.length
decreasing_by
· simp
· exact Nat.lt_succ_of_lt (takeUntil_length hq)
· exact takeRun_snd_length_cons hw
· exact Nat.lt_succ_of_lt (takeUntil_length hq)
· exact takeRun_snd_length_cons hw
· exact takeRun_snd_length_cons hw

/-- `tokenize` (script.js lines 291-298). -/
def tokenize (s : String) : List String :=
  tokenizeAux s.data

theorem tokenizeAux_nil : tokenizeAux [] = [] := by
  rw [tokenizeAux]

theorem tokenizeAux_ws {c : Char} {cs : List Char} (h : jsWhitespace c = true) :
    tokenizeAux (c :: cs) = tokenizeAux cs := by
  rw [tokenizeAux, dif_pos h]

theorem tokenizeAux_dq {cs : List Char} {p : List Char × List Char}
    (h : takeUntil '"' cs = some p) :
    tokenizeAux ('"' :: cs) = String.mk p.1 :: tokenizeAux p.2 := by
  rw [tokenizeAux]
  rw [dif_neg (by decide : ¬ jsWhitespace '"' = true), if_pos rfl]
  split
  · next q hq => rw [h] at hq; cases hq; rfl
  · next hq => rw [h] at hq; cases hq

theorem tokenizeAux_dq_unmatched {cs : List Char}
    (h : takeUntil '"' cs = none) :
    tokenizeAux ('"' :: cs) =
      String.mk (takeRun ('"' :: cs)).1 :: tokenizeAux (takeRun ('"' :: cs)).2 := by
  rw [tokenizeAux]
  rw [dif_neg (by decide : ¬ jsWhitespace '"' = true), if_pos rfl]
  split
  · next q hq => rw [h] at hq; cases hq
  · next hq => rfl

theorem tokenizeAux_sq {cs : List Char} {p : List Char × List Char}
    (h : takeUntil squote cs = some p) :
    tokenizeAux (squote :: cs) = String.mk p.1 :: tokenizeAux p.2 := by
  rw [tokenizeAux]
  rw [dif_neg (by decide : ¬ jsWhitespace squote = true)]
  rw [if_neg (by decide : ¬ squote = '"'), if_pos rfl]
  split
  · next q hq => rw [h] at hq; cases hq; rfl
  · next hq => rw [h] at hq; cases hq

theorem tokenizeAux_sq_unmatched {cs : List Char}
    (h : takeUntil squote cs = none) :
    tokenizeAux (squote :: cs) =
      String.mk (takeRun (squote :: cs)).1 :: tokenizeAux (takeRun (squote :: cs)).2 := by
  rw [tokenizeAux]
  rw [dif_neg (by decide : ¬ jsWhitespace squote = true)]
  rw [if_neg (by decide : ¬ squote = '"'), if_pos rfl]
  split
  · next q hq => rw [h] at hq; cases hq
  · next hq => rfl

theorem tokenizeAux_bare {c : Char} {cs : List Char}
    (hw : ¬ jsWhitespace c = true) (hd : ¬ c = '"') (hs : ¬ c = squote) :
    tokenizeAux (c :: cs) =
      String.mk (takeRun (c :: cs)).1 :: tokenizeAux (takeRun (c :: cs)).2 := by
  rw [tokenizeAux, dif_neg hw, if_neg hd, if_neg hs]

theorem takeUntil_append {stop : Char} {t rest : List Char} (h : stop ∉ t) :
    takeUntil stop (t ++ stop :: rest) = some (t, rest) := by
  induction t with
  | nil => rw [List.nil_append, takeUntil, if_pos rfl]
  | cons c cs ih =>
    have hc : ¬ c = stop := by
      intro e
      exact h (by rw [e]; exact List.mem_cons_self _ _)
    rw [List.cons_append, takeUntil, if_neg hc,
      ih (fun hm => h (List.mem_cons_of_mem c hm))]

theorem takeUntil_none {stop : Char} {l : List Char} (h : stop ∉ l) :
    takeUntil stop l = none := by
  induction l with
  | nil => rfl
  | cons c cs ih =>
    have hc : ¬ c = stop := by
      intro e
      exact h (by rw [e]; exact List.mem_cons_self _ _)
    rw [takeUntil, if_neg hc, ih (fun hm => h (List.mem_cons_of_mem c hm))]

theorem takeRun_ws_or_nil {rest : List Char}
    (h : rest = [] ∨ ∃ d ds, rest = d :: ds ∧ jsWhitespace d = true) :
    takeRun rest = ([], rest) := by
  rcases h with h | ⟨d, ds, hrest, hd⟩
  · subst h; rfl
  · subst hrest; rw [takeRun, if_pos hd]

theorem takeRun_append {w rest : List Char}
    (hw : ∀ c ∈ w, jsWhitespace c = false)
    (hrest : rest = [] ∨ ∃ d ds, rest = d :: ds ∧ jsWhitespace d = true) :
    takeRun (w ++ rest) = (w, rest) := by
  induction w with
  | nil => simpa using takeRun_ws_or_nil hrest
  | cons c cs ih =>
    have hc : ¬ jsWhitespace c = true := by
      rw [hw c (List.mem_cons_self _ _)]; exact Bool.false_ne_true
    rw [List.cons_append, takeRun, if_neg hc]
    simp only [ih (fun x hx => hw x (List.mem_cons_of_mem c hx))]

/-- A double-quoted run at the head of the input is one token, quotes stripped,
interior verbatim. -/
theorem tokenizeAux_quoted_run {t rest : List Char} (h : '"' ∉ t) :
    tokenizeAux ('"' :: (t ++ '"' :: rest)) = String.mk t :: tokenizeAux rest :=
  tokenizeAux_dq (takeUntil_append h)

/-- A single-quoted run at the head of the input is one token, quotes stripped,
interior verbatim. -/
theorem tokenizeAux_squoted_run {t rest : List Char} (h : squote ∉ t) :
    tokenizeAux (squote :: (t ++ squote :: rest)) = String.mk t :: tokenizeAux rest :=
  tokenizeAux_sq (takeUntil_append h)

/-- A maximal run of non-whitespace characters not opening with a quote is one
bare token, taken verbatim. -/
theorem tokenizeAux_bare_run {c : Char} {w rest : List Char}
    (hw : ∀ x ∈ c :: w, jsWhitespace x = false) (hd : ¬ c = '"') (hs : ¬ c = squote)
    (hrest : rest = [] ∨ ∃ d ds, rest = d :: ds ∧ jsWhitespace d = true) :
    tokenizeAux ((c :: w) ++ rest) = String.mk (c :: w) :: tokenizeAux rest := by
  have hr := takeRun_append (w := c :: w) hw hrest
  rw [List.cons_append] at hr
  have hc : ¬ jsWhitespace c = true := by
    rw [hw c (List.mem_cons_self _ _)]; exact Bool.false_ne_true
  rw [List.cons_append, tokenizeAux_bare hc hd hs, hr]

/-- Modelled from the spec: `randomFailure` is called by `commitCmd`
(src/script.js line 127) but its definition is not among the files under src/;
per the spec it returns "a randomly chosen canned failure message". Modelled as
a fixed nonempty canned list selected by a random index `k`. -/
def cannedFailures : List String :=
  ["Broke the build before standup",
   "Pushed secrets to a public repo",
   "Rebased the wrong branch onto main"]

/-- Modelled from the spec: selection of a canned failure message by the random
draw `k`. -/
def randomFailure (k : Nat) : String :=
  cannedFailures.getD (k % cannedFailures.length) ""

/-- Modelled from the spec: the keyword-to-lesson mapping table used by the
lesson suggestion heuristic, "a small fixed mapping table" over the keyword
substrings named in the spec. -/
def lessonTable : List (String × String) :=
  [("prod", "Gate production changes behind checks"),
   ("test", "Let the tests run before you ship"),
   ("deploy", "Automate the deploy checklist"),
   ("merge", "Review the diff before merging"),
   ("delete", "Back up before you delete")]

/-- Modelled from the spec: the deterministic generic fallback lesson returned
when no keyword matches. -/
def fallbackLesson : String :=
  "Every failure is data: write it down"

/-- Is `needle` a leading segment of `hay`? -/
def leadsWith : List Char → List Char → Bool
  | [], _ => true
  | _ :: _, [] => false
  | a :: as, b :: bs => a = b && leadsWith as bs

/-- Does `needle` occur as a contiguous segment of `hay`? -/
def hasSegment (needle : List Char) : List Char → Bool
  | [] => leadsWith needle []
  | c :: cs => leadsWith needle (c :: cs) || hasSegment needle cs

/-- Modelled from the spec: `suggestLesson` is called by `commitCmd`
(src/script.js line 128) but its definition is not among the files under src/;
per the spec it scans the commit message case-insensitively for known keyword
substrings and returns the associated canned lesson for the first match, or the
deterministic generic fallback when no keyword matches. -/
def suggestLesson (msg : String) : String :=
  match lessonTable.find? (fun kv => hasSegment kv.1.data (msg.data.map Char.toLower)) with
  | some kv => kv.2
  | none => fallbackLesson

/-- `commitCmd` (script.js lines 126-136). `message` is the rejoined argument
text; `k` is the random draw consumed by `randomFailure` when the text is empty
or whitespace-only. Appends one `PendingItem`, persists, and prints the staged
confirmation followed by the echo of the staged item. -/
def commitCmd (sys : Sys) (message : String) (k : Nat) : Sys :=
  let msg := if message ≠ "" ∧ jsTrim message ≠ "" then jsTrim message else randomFailure k
  let st := { sys.state with pending := sys.state.pending ++ [⟨msg, suggestLesson msg⟩] }
  { state := st,
    store := some st,
    screen := sys.screen ++
      ["staged 1 file for commit",
       "changes staged:\n  fail:   " ++ msg ++ "\n  lesson: " ++ suggestLesson msg] }

/-- `pushCmd` (script.js lines 138-152). `ids` models the successive
`shortId()` draws (one per pending item, in order) and `today` models
`new Date().toLocaleDateString()`. -/
def pushCmd (sys : Sys) (ids : Nat → String) (today : String) : Sys :=
  if sys.state.pending = [] then
    { sys with screen := sys.screen ++ ["nothing to push"] }
  else
    let newEntries := sys.state.pending.enum.map
      (fun ip => { id := ids ip.1, date := today,
                   message := ip.2.message, lesson := ip.2.lesson : Entry })
    let st := { sys.state with
                entries := sys.state.entries ++ newEntries, pending := [] }
    { state := st,
      store := some st,
      screen := sys.screen ++ ["pushed to origin 🎉 failures celebrated"] }

/-- `mottoCmd` (script.js lines 154-161). -/
def mottoCmd (sys : Sys) (text : String) : Sys :=
  let t := if text ≠ "" then jsTrim text else ""
  if t = "" then
    { sys with screen := sys.screen ++ ["usage: motto \"text\""] }
  else
    let st := { sys.state with mottos := sys.state.mottos ++ [t] }
    { state := st, store := some st, screen := sys.screen ++ ["motto added"] }

/-- JavaScript `Array.prototype.findIndex`: index of the first element
satisfying `p`, with `-1` modelled as `none` (script.js line 222). -/
def findIndex {α : Type} (p : α → Bool) : List α → Option Nat
  | [] => none
  | a :: as => if p a then some 0 else (findIndex p as).map (· + 1)

/-- JavaScript `Array.prototype.splice(i, 1)`: remove the single element at
index `i` (script.js line 224). -/
def splice1 {α : Type} : List α → Nat → List α
  | [], _ => []
  | _ :: as, 0 => as
  | a :: as, n + 1 => a :: splice1 as n

/-- The delete action of the full fail-log view (script.js lines 221-228):
find the first entry whose id equals the clicked row's id; if found, splice it
out and persist, otherwise do nothing. -/
def deleteEntry (sys : Sys) (targetId : String) : Sys :=
  match findIndex (fun x => x.id = targetId) sys.state.entries with
  | some idx =>
    let st := { sys.state with entries := splice1 sys.state.entries idx }
    { sys with state := st, store := some st }
  | none => sys

/-- Per-character replacement map of `escapeHtml` (script.js lines 300-303):
the five markup-significant characters map to their entities, every other
character is kept. -/
def escapeChar (c : Char) : List Char :=
  if c = '&' then "&amp;".data
  else if c = '<' then "&lt;".data
  else if c = '>' then "&gt;".data
  else if c = '"' then "&quot;".data
  else if c = squote then "&#39;".data
  else [c]

/-- `escapeHtml` (script.js lines 300-303): replace each occurrence of
`&`, `<`, `>`, `"`, `'` by its HTML entity. -/
def escapeHtml (s : String) : String :=
  String.mk (s.data.map escapeChar).flatten

/-- The base-36 digit characters produced by `Number.prototype.toString(36)`. -/
def base36Digits : List Char := "0123456789abcdefghijklmnopqrstuvwxyz".data

/-- `Number.prototype.toString(36)` for a number in `[0, 1)`, abstracted over
the digit expansion `ds` of its fractional part: `0` prints as `"0"`, any other
value prints as `"0."` followed by its nonempty digit expansion. -/
def toStringBase36Frac (ds : List Char) : String :=
  if ds = [] then "0" else String.mk ('0' :: '.' :: ds)

/-- JavaScript `String.prototype.slice(a, b)` for `0 ≤ a ≤ b`. -/
def jsSlice (s : String) (a b : Nat) : String :=
  String.mk ((s.data.drop a).take (b - a))

/-- `shortId` (script.js lines 305-307): `Math.random().toString(36).slice(2, 9)`,
abstracted over the base-36 fractional digit expansion `ds` of the random
draw. -/
def shortId (ds : List Char) : String :=
  jsSlice (toStringBase36Frac ds) 2 9

/-- `seedMottos` (script.js lines 352-358). -/
def seedMottos : List String :=
  ["Blameless, then curious.",
   "Ship, learn, repeat.",
   "If it hurts, document it."]

/-- `seedEntries` (script.js lines 345-350), abstracted over the two generated
ids and the current locale date string. -/
def seedEntries (id1 id2 date : String) : List Entry :=
  [{ id := id1, date := date, message := "Pushed broken config to prod",
     lesson := "Add CI checks & use feature flags" },
   { id := id2, date := date, message := "Forgot to save before running benchmarks",
     lesson := "Automate benchmarks in npm scripts" }]

/-- `defaultState` (script.js lines 17-21). -/
def defaultState (id1 id2 date : String) : State :=
  { pending := [], entries := seedEntries id1 id2 date, mottos := seedMottos }

/-- The value a stored record parses to under `JSON.parse`. A record that
happens to serialize a well-formed `State` parses to `jsState`; any other
successfully parsed JSON document is one of the remaining constructors
(`jsOther` stands for arrays/objects not matching the `State` shape). -/
inductive JsVal where
  | jsNull
  | jsBool (b : Bool)
  | jsNum (n : Int)
  | jsStr (s : String)
  | jsState (s : State)
  | jsOther
deriving DecidableEq, Repr

/-- JavaScript truthiness of a parsed JSON value, as consulted by
`loadState() || defaultState` and `if (!loadState())` (script.js lines 24 and
33-34). -/
def isTruthy : JsVal → Bool
  | .jsNull => false
  | .jsBool b => b
  | .jsNum n => n ≠ 0
  | .jsStr s => s ≠ ""
  | .jsState _ => true
  | .jsOther => true

/-- The raw `localStorage` record under the storage key: absent, present but
rejected by `JSON.parse`, or present and parsing to a `JsVal`. -/
inductive StoredRecord where
  | absent
  | unparseable
  | parsed (v : JsVal)
deriving DecidableEq, Repr

/-- `loadState` (script.js lines 23-26) combined with the `|| null` coercion:
an absent record gives `JSON.parse(null) = null`; a parse error is caught and
gives `null`; a successfully parsed record is returned unless it is falsy, in
which case `|| null` collapses it to `null`. `none` models the `null` result. -/
def loadState : StoredRecord → Option JsVal
  | .absent => none
  | .unparseable => none
  | .parsed v => if isTruthy v then some v else none

/-- The module-initialization sequence (script.js lines 33-34):
`let state = loadState() || defaultState; if (!loadState()) saveState(state);`.
Returns the in-memory value the page works with and the stored record
afterward. -/
def bootState (r : StoredRecord) (dflt : State) : JsVal × StoredRecord :=
  match loadState r with
  | some v => (v, r)
  | none => (.jsState dflt, .parsed (.jsState dflt))

theorem randomFailure_mem (k : Nat) : randomFailure k ∈ cannedFailures := by
  have h3 : k % 3 = 0 ∨ k % 3 = 1 ∨ k % 3 = 2 := by omega
  rcases h3 with h | h | h <;>
    simp [randomFailure, cannedFailures, h]

/-- C1: for every input line to the commit command, `commit` appends exactly one
`PendingItem` to `pending` — with message the trimmed text and lesson
deterministically suggested from it by the keyword heuristic when the trimmed
text is non-empty, and with a canned failure message otherwise — persists the
state, completes (it is a total function), and leaves `entries` and `mottos`
unchanged. -/
theorem commitCmd_spec (sys : Sys) (message : String) (k : Nat) :
    (jsTrim message ≠ "" →
      (commitCmd sys message k).state.pending =
        sys.state.pending ++ [⟨jsTrim message, suggestLesson (jsTrim message)⟩])
    ∧ (jsTrim message = "" →
      (commitCmd sys message k).state.pending =
        sys.state.pending ++ [⟨randomFailure k, suggestLesson (randomFailure k)⟩]
      ∧ randomFailure k ∈ cannedFailures)
    ∧ (commitCmd sys message k).store = some (commitCmd sys message k).state
    ∧ (commitCmd sys message k).state.entries = sys.state.entries
    ∧ (commitCmd sys message k).state.mottos = sys.state.mottos := by
  by_cases ht : jsTrim message = ""
  · have hcond : ¬ (message ≠ "" ∧ jsTrim message ≠ "") := fun hc => hc.2 ht
    refine ⟨fun h => absurd ht h, fun _ => ⟨?_, randomFailure_mem k⟩, ?_, ?_, ?_⟩ <;>
      simp [commitCmd, if_neg hcond]
  · have hm : message ≠ "" := by
      intro he
      rw [he] at ht
      exact ht rfl
    have hcond : message ≠ "" ∧ jsTrim message ≠ "" := ⟨hm, ht⟩
    refine ⟨fun _ => ?_, fun h => absurd h ht, ?_, ?_, ?_⟩ <;>
      simp [commitCmd, if_pos hcond]

theorem commitCmd_spec_witness :
    (commitCmd ⟨⟨[], [], []⟩, none, []⟩ "I broke prod" 0).state.pending =
      [⟨"I broke prod", "Gate production changes behind checks"⟩] := by
  have h := (commitCmd_spec ⟨⟨[], [], []⟩, none, []⟩ "I broke prod" 0).1 (by decide)
  rw [h]
  decide

/-- C4: `push` with empty `pending` changes nothing — in-memory state and the
persisted record are untouched — and reports exactly one warning line. -/
theorem push_empty_pending (sys : Sys) (ids : Nat → String) (today : String)
    (h : sys.state.pending = []) :
    pushCmd sys ids today = { sys with screen := sys.screen ++ ["nothing to push"] } := by
  rw [pushCmd, if_pos h]

theorem push_empty_pending_witness :
    pushCmd ⟨⟨[], [], []⟩, none, []⟩ (fun _ => "a1b2c3d") "10/11/2025" =
      { state := ⟨[], [], []⟩, store := none, screen := ["nothing to push"] } := by
  have h := push_empty_pending ⟨⟨[], [], []⟩, none, []⟩ (fun _ => "a1b2c3d") "10/11/2025" rfl
  simpa using h

/-- C8: `motto` with empty or whitespace-only text leaves the whole system
unchanged except for a usage warning line; otherwise it appends exactly one
motto equal to the trimmed text, persists, and confirms. -/
theorem mottoCmd_spec (sys : Sys) (text : String) :
    (jsTrim text = "" →
      mottoCmd sys text = { sys with screen := sys.screen ++ ["usage: motto \"text\""] })
    ∧ (jsTrim text ≠ "" →
      (mottoCmd sys text).state.mottos = sys.state.mottos ++ [jsTrim text]
      ∧ (mottoCmd sys text).state.pending = sys.state.pending
      ∧ (mottoCmd sys text).state.entries = sys.state.entries
      ∧ (mottoCmd sys text).store = some (mottoCmd sys text).state
      ∧ (mottoCmd sys text).screen = sys.screen ++ ["motto added"]) := by
  by_cases ht : jsTrim text = ""
  · refine ⟨fun _ => ?_, fun h => absurd ht h⟩
    by_cases he : text = ""
    · subst he
      simp [mottoCmd]
    · simp [mottoCmd, he, ht]
  · refine ⟨fun h => absurd h ht, fun _ => ?_⟩
    have he : text ≠ "" := by
      intro he
      rw [he] at ht
      exact ht rfl
    refine ⟨?_, ?_, ?_, ?_, ?_⟩ <;> simp [mottoCmd, he, ht]

theorem mottoCmd_spec_witness :
    (mottoCmd ⟨⟨[], [], []⟩, none, []⟩ "Ship it").state.mottos = ["Ship it"] := by
  have h := (mottoCmd_spec ⟨⟨[], [], []⟩, none, []⟩ "Ship it").2 (by decide)
  rw [h.1]
  decide

/-- C2: from a state with empty `pending` and empty `entries`, `commit "X"`
followed by `push` yields exactly one entry with message `X`, the freshly
generated id (the first `shortId` draw of the push) and the current date, and
`pending` is empty afterward. -/
theorem commit_push_round_trip (mottos : List String) (store0 : Option State)
    (screen0 : List String) (message : String) (k : Nat) (ids : Nat → String)
    (today : String) (h1 : jsTrim message = message) (h2 : message ≠ "") :
    ((pushCmd (commitCmd ⟨⟨[], [], mottos⟩, store0, screen0⟩ message k) ids today).state.entries
        = [⟨ids 0, today, message, suggestLesson message⟩])
    ∧ (pushCmd (commitCmd ⟨⟨[], [], mottos⟩, store0, screen0⟩ message k) ids today).state.pending
        = [] := by
  have hcond : message ≠ "" ∧ jsTrim message ≠ "" := ⟨h2, by rw [h1]; exact h2⟩
  constructor <;>
    simp [commitCmd, pushCmd, if_pos hcond, h1, h2, List.enum]

theorem commit_push_round_trip_witness :
    ((pushCmd (commitCmd ⟨⟨[], [], []⟩, none, []⟩ "X" 0) (fun _ => "a1b2c3d") "10/11/2025").state.entries
        = [⟨"a1b2c3d", "10/11/2025", "X", suggestLesson "X"⟩])
    ∧ (pushCmd (commitCmd ⟨⟨[], [], []⟩, none, []⟩ "X" 0) (fun _ => "a1b2c3d") "10/11/2025").state.pending
        = [] :=
  commit_push_round_trip [] none [] "X" 0 (fun _ => "a1b2c3d") "10/11/2025" (by decide) (by decide)

/-- C5 counterexample: a manually corrupted or incompatible stored record is
not always treated as absent. The record `"42"` is valid JSON, incompatible
with the `State` shape, yet `loadState` returns it rather than absent, and the
boot sequence neither materializes nor persists the seeded default. -/
theorem loadState_incompatible_counterexample :
    loadState (StoredRecord.parsed (JsVal.jsNum 42)) ≠ none
    ∧ bootState (StoredRecord.parsed (JsVal.jsNum 42)) (defaultState "a1b2c3d" "e4f5g6h" "10/11/2025")
        = (JsVal.jsNum 42, StoredRecord.parsed (JsVal.jsNum 42))
    ∧ (bootState (StoredRecord.parsed (JsVal.jsNum 42)) (defaultState "a1b2c3d" "e4f5g6h" "10/11/2025")).2
        ≠ StoredRecord.parsed (JsVal.jsState (defaultState "a1b2c3d" "e4f5g6h" "10/11/2025")) := by
  refine ⟨?_, rfl, ?_⟩ <;> decide

/-- C5 (amended): `load` never raises — it is total — and a missing record, an
unparseable record, and a record parsing to a falsy value are all treated as
absent, in which case the boot sequence materializes the seeded default and
persists it immediately, so a subsequent load observes the seeded baseline;
but a record parsing to a truthy JSON value, even one incompatible with the
`State` shape, is returned as-is and not replaced. -/
theorem loadState_spec (v : JsVal) (d : State) (r : StoredRecord) :
    loadState StoredRecord.absent = none
    ∧ loadState StoredRecord.unparseable = none
    ∧ (isTruthy v = false → loadState (StoredRecord.parsed v) = none)
    ∧ (isTruthy v = true → loadState (StoredRecord.parsed v) = some v)
    ∧ (loadState r = none →
        bootState r d = (JsVal.jsState d, StoredRecord.parsed (JsVal.jsState d)))
    ∧ loadState (bootState StoredRecord.absent d).2 = some (JsVal.jsState d) := by
  refine ⟨rfl, rfl, fun hv => ?_, fun hv => ?_, fun hr => ?_, rfl⟩
  · simp [loadState, hv]
  · simp [loadState, hv]
  · simp [bootState, hr]

theorem loadState_spec_witness :
    loadState (StoredRecord.parsed JsVal.jsNull) = none
    ∧ bootState (StoredRecord.parsed JsVal.jsNull) (defaultState "a1b2c3d" "e4f5g6h" "10/11/2025")
        = (JsVal.jsState (defaultState "a1b2c3d" "e4f5g6h" "10/11/2025"),
           StoredRecord.parsed (JsVal.jsState (defaultState "a1b2c3d" "e4f5g6h" "10/11/2025"))) := by
  have h := loadState_spec JsVal.jsNull (defaultState "a1b2c3d" "e4f5g6h" "10/11/2025")
    (StoredRecord.parsed JsVal.jsNull)
  exact ⟨h.2.2.1 rfl, h.2.2.2.2.1 (h.2.2.1 rfl)⟩

/-- C6 counterexample: generated ids are not always 7 characters, and ids are
not guaranteed unique across `entries`. If `Math.random()` draws `0.5`
(base-36 expansion `"i"`), `shortId` returns the 1-character id `"i"`; and if
the random source repeats a draw across the two `shortId()` calls of one push,
the two new entries receive identical ids. -/
theorem shortId_counterexample :
    (shortId ['i']).length = 1
    ∧ ¬ ((pushCmd ⟨⟨[⟨"a", "b"⟩, ⟨"c", "d"⟩], [], []⟩, none, []⟩
          (fun _ => shortId ['a', 'b', 'c', 'd', 'e', 'f', 'g', 'h']) "10/11/2025").state.entries.map
            Entry.id).Nodup := by
  constructor <;> decide

/-- C6 (amended): `shortId` returns the random draw's base-36 fractional digit
expansion truncated to at most 7 characters — exactly 7 only when the
expansion has at least 7 digits, fewer otherwise — every character a base-36
digit; uniqueness across `entries` is not enforced, only probabilistic. -/
theorem shortId_spec (ds : List Char) (h : ∀ c ∈ ds, c ∈ base36Digits) :
    (shortId ds).length ≤ 7
    ∧ (∀ c ∈ (shortId ds).data, c ∈ base36Digits)
    ∧ (7 ≤ ds.length → (shortId ds).length = 7) := by
  by_cases hds : ds = []
  · subst hds
    refine ⟨by decide, by decide, fun h7 => ?_⟩
    simp at h7
  · have hdata : (toStringBase36Frac ds).data = '0' :: '.' :: ds := by
      rw [toStringBase36Frac, if_neg hds]
    have hslice : (shortId ds).data = ds.take 7 := by
      show ((toStringBase36Frac ds).data.drop 2).take (9 - 2) = ds.take 7
      rw [hdata]
      rfl
    have hlen : (shortId ds).length = (ds.take 7).length := by
      show (shortId ds).data.length = (ds.take 7).length
      rw [hslice]
    refine ⟨?_, ?_, fun h7 => ?_⟩
    · rw [hlen]
      simp [List.length_take]
    · intro c hc
      rw [hslice] at hc
      exact h c (List.mem_of_mem_take hc)
    · rw [hlen]
      simp [List.length_take]
      omega

theorem shortId_spec_witness :
    (shortId ['0', '1', '2']).length ≤ 7
    ∧ (∀ c ∈ (shortId ['0', '1', '2']).data, c ∈ base36Digits) :=
  ⟨(shortId_spec ['0', '1', '2'] (by decide)).1, (shortId_spec ['0', '1', '2'] (by decide)).2.1⟩

theorem findIndex_splice_spec {l : List Entry} {tid : String}
    (h : ∃ x ∈ l, x.id = tid) :
    ∃ pre a post,
      l = pre ++ a :: post
      ∧ a.id = tid
      ∧ (∀ b ∈ pre, b.id ≠ tid)
      ∧ findIndex (fun x => x.id = tid) l = some pre.length
      ∧ splice1 l pre.length = pre ++ post := by
  induction l with
  | nil =>
    obtain ⟨x, hx, _⟩ := h
    cases hx
  | cons e es ih =>
    by_cases he : e.id = tid
    · exact ⟨[], e, es, rfl, he, by simp, by simp [findIndex, he], rfl⟩
    · have hes : ∃ x ∈ es, x.id = tid := by
        obtain ⟨x, hx, hxid⟩ := h
        rcases List.mem_cons.mp hx with hx | hx
        · exact absurd (hx ▸ hxid) he
        · exact ⟨x, hx, hxid⟩
      obtain ⟨pre, a, post, hsplit, haid, hpre, hfind, hsplice⟩ := ih hes
      refine ⟨e :: pre, a, post, by rw [hsplit]; rfl, haid, ?_, ?_, ?_⟩
      · intro b hb
        rcases List.mem_cons.mp hb with hb | hb
        · exact hb ▸ he
        · exact hpre b hb
      · simp [findIndex, he, hfind]
      · show splice1 (e :: es) (pre.length + 1) = (e :: pre) ++ post
        rw [splice1, hsplice]
        rfl

/-- C7: for every entry present in `entries`, the fail-log delete action on
that entry's id removes the first entry matching the id, decreasing the length
of `entries` by exactly 1, leaves every other entry unaltered and in order,
leaves `pending` and `mottos` unchanged, and persists the state. -/
theorem deleteEntry_spec (sys : Sys) (e : Entry) (he : e ∈ sys.state.entries) :
    ∃ pre a post,
      sys.state.entries = pre ++ a :: post
      ∧ a.id = e.id
      ∧ (∀ b ∈ pre, b.id ≠ e.id)
      ∧ (deleteEntry sys e.id).state.entries = pre ++ post
      ∧ (deleteEntry sys e.id).state.entries.length + 1 = sys.state.entries.length
      ∧ (deleteEntry sys e.id).state.pending = sys.state.pending
      ∧ (deleteEntry sys e.id).state.mottos = sys.state.mottos
      ∧ (deleteEntry sys e.id).store = some (deleteEntry sys e.id).state := by
  obtain ⟨pre, a, post, hsplit, haid, hpre, hfind, hsplice⟩ :=
    findIndex_splice_spec ⟨e, he, rfl⟩
  have hdel : deleteEntry sys e.id =
      { sys with
        state := { sys.state with entries := pre ++ post },
        store := some { sys.state with entries := pre ++ post } } := by
    simp only [deleteEntry, hfind, hsplice]
  refine ⟨pre, a, post, hsplit, haid, hpre, by rw [hdel], ?_, by rw [hdel], by rw [hdel],
    by rw [hdel]⟩
  rw [hdel, hsplit]
  simp
  omega

theorem deleteEntry_spec_witness :
    ∃ pre a post,
      ([⟨"id1", "d", "m1", "l1"⟩, ⟨"id2", "d", "m2", "l2"⟩] : List Entry) = pre ++ a :: post
      ∧ a.id = Entry.id ⟨"id2", "d", "m2", "l2"⟩
      ∧ (∀ b ∈ pre, b.id ≠ Entry.id ⟨"id2", "d", "m2", "l2"⟩)
      ∧ (deleteEntry ⟨⟨[], [⟨"id1", "d", "m1", "l1"⟩, ⟨"id2", "d", "m2", "l2"⟩], []⟩, none, []⟩
          (Entry.id ⟨"id2", "d", "m2", "l2"⟩)).state.entries = pre ++ post :=
  have h := deleteEntry_spec ⟨⟨[], [⟨"id1", "d", "m1", "l1"⟩, ⟨"id2", "d", "m2", "l2"⟩], []⟩, none, []⟩
    ⟨"id2", "d", "m2", "l2"⟩ (by decide)
  have ⟨pre, a, post, h1, h2, h3, h4, _⟩ := h
  ⟨pre, a, post, h1, h2, h3, h4⟩

theorem escapeChar_no_markup (c : Char) :
    ∀ x ∈ escapeChar c, x ≠ '<' ∧ x ≠ '>' ∧ x ≠ '"' ∧ x ≠ squote := by
  intro x hx
  rw [escapeChar] at hx
  split_ifs at hx with h1 h2 h3 h4 h5
  · fin_cases hx <;> decide
  · fin_cases hx <;> decide
  · fin_cases hx <;> decide
  · fin_cases hx <;> decide
  · fin_cases hx <;> decide
  · rcases List.mem_singleton.mp hx with rfl
    exact ⟨h2, h3, h4, h5⟩

/-- C9: the escaping function replaces every ampersand, angle bracket and quote
character: its output never contains a raw `<`, `>`, `"` or `'`, each special
character maps to its entity, and a message containing `<script>` renders as
the literal entity-escaped text, never as markup. -/
theorem escapeHtml_spec (s : String) :
    (∀ c ∈ (escapeHtml s).data, c ≠ '<' ∧ c ≠ '>' ∧ c ≠ '"' ∧ c ≠ squote)
    ∧ escapeHtml "<script>" = "&lt;script&gt;"
    ∧ escapeHtml "&" = "&amp;"
    ∧ escapeHtml ">" = "&gt;"
    ∧ escapeHtml "\"" = "&quot;"
    ∧ escapeHtml (String.mk [squote]) = "&#39;" := by
  refine ⟨?_, by decide, by decide, by decide, by decide, by decide⟩
  intro c hc
  have hc' : c ∈ (s.data.map escapeChar).flatten := hc
  rw [List.mem_flatten] at hc'
  obtain ⟨l, hl, hcl⟩ := hc'
  rw [List.mem_map] at hl
  obtain ⟨d, _, rfl⟩ := hl
  exact escapeChar_no_markup d c hcl

theorem escapeHtml_spec_witness :
    '<' ∉ (escapeHtml "<script>alert(1)</script>").data := by
  intro hmem
  exact ((escapeHtml_spec "<script>alert(1)</script>").1 '<' hmem).1 rfl

theorem tokenize_commit_example :
    tokenize "commit \"fix prod\" now" = ["commit", "fix prod", "now"] := by
  rw [tokenize]
  show tokenizeAux
    ['c', 'o', 'm', 'm', 'i', 't', ' ', '"', 'f', 'i', 'x', ' ', 'p', 'r', 'o', 'd', '"',
     ' ', 'n', 'o', 'w'] = _
  rw [tokenizeAux_bare (c := 'c') (by decide) (by decide) (by decide)]
  rw [show takeRun
      ['c', 'o', 'm', 'm', 'i', 't', ' ', '"', 'f', 'i', 'x', ' ', 'p', 'r', 'o', 'd', '"',
       ' ', 'n', 'o', 'w']
      = (['c', 'o', 'm', 'm', 'i', 't'],
         [' ', '"', 'f', 'i', 'x', ' ', 'p', 'r', 'o', 'd', '"', ' ', 'n', 'o', 'w'])
    from by decide]
  rw [tokenizeAux_ws (c := ' ') (by decide)]
  rw [tokenizeAux_dq (show takeUntil '"'
      ['f', 'i', 'x', ' ', 'p', 'r', 'o', 'd', '"', ' ', 'n', 'o', 'w']
      = some (['f', 'i', 'x', ' ', 'p', 'r', 'o', 'd'], [' ', 'n', 'o', 'w'])
    from by decide)]
  rw [tokenizeAux_ws (c := ' ') (by decide)]
  rw [tokenizeAux_bare (c := 'n') (by decide) (by decide) (by decide)]
  rw [show takeRun ['n', 'o', 'w'] = (['n', 'o', 'w'], []) from by decide]
  rw [tokenizeAux_nil]

theorem tokenize_empty : tokenize "" = [] := by
  rw [tokenize]
  exact tokenizeAux_nil

theorem tokenize_dq_unmatched_example :
    tokenize (String.mk ('"' :: "abc".data)) = [String.mk ('"' :: "abc".data)] := by
  rw [tokenize]
  show tokenizeAux ['"', 'a', 'b', 'c'] = _
  rw [tokenizeAux_dq_unmatched (show takeUntil '"' ['a', 'b', 'c'] = none from by decide)]
  rw [show takeRun ['"', 'a', 'b', 'c'] = (['"', 'a', 'b', 'c'], []) from by decide]
  rw [tokenizeAux_nil]

theorem tokenize_sq_unmatched_example :
    tokenize (String.mk (squote :: "abc".data)) = [String.mk (squote :: "abc".data)] := by
  rw [tokenize]
  show tokenizeAux (squote :: ['a', 'b', 'c']) = _
  rw [tokenizeAux_sq_unmatched (show takeUntil squote ['a', 'b', 'c'] = none from by decide)]
  rw [show takeRun (squote :: ['a', 'b', 'c']) = (squote :: ['a', 'b', 'c'], []) from by decide]
  rw [tokenizeAux_nil]

theorem tokenize_mixed_quotes_example :
    tokenize (String.mk
        ('"' :: 'a' :: squote :: 'b' :: '"' :: ' ' :: squote :: 'c' :: '"' :: 'd' :: squote :: []))
      = [String.mk ['a', squote, 'b'], String.mk ['c', '"', 'd']] := by
  rw [tokenize]
  show tokenizeAux
    ('"' :: 'a' :: squote :: 'b' :: '"' :: ' ' :: squote :: 'c' :: '"' :: 'd' :: squote :: []) = _
  rw [tokenizeAux_dq (show takeUntil '"'
      ('a' :: squote :: 'b' :: '"' :: ' ' :: squote :: 'c' :: '"' :: 'd' :: squote :: [])
      = some (['a', squote, 'b'], (' ' :: squote :: 'c' :: '"' :: 'd' :: squote :: []))
    from by decide)]
  rw [tokenizeAux_ws (c := ' ') (by decide)]
  rw [tokenizeAux_sq (show takeUntil squote ('c' :: '"' :: 'd' :: squote :: [])
      = some (['c', '"', 'd'], []) from by decide)]
  rw [tokenizeAux_nil]

/-- C3: the tokenizer scans left to right producing tokens in scan order: a
whitespace character starts no token, a double-quoted run is one token with
the quotes stripped and the interior (including spaces) verbatim, a
single-quoted run is one token under the same rule, any other maximal run of
non-whitespace characters is one token, the empty input yields the empty
sequence, and in particular `tokenize "commit \"fix prod\" now"` is
`["commit", "fix prod", "now"]`. -/
theorem tokenize_spec :
    tokenize "" = []
    ∧ tokenize "commit \"fix prod\" now" = ["commit", "fix prod", "now"]
    ∧ (∀ (c : Char) (cs : List Char), jsWhitespace c = true →
        tokenizeAux (c :: cs) = tokenizeAux cs)
    ∧ (∀ (t rest : List Char), '"' ∉ t →
        tokenizeAux ('"' :: (t ++ '"' :: rest)) = String.mk t :: tokenizeAux rest)
    ∧ (∀ (t rest : List Char), squote ∉ t →
        tokenizeAux (squote :: (t ++ squote :: rest)) = String.mk t :: tokenizeAux rest)
    ∧ (∀ (c : Char) (w rest : List Char), (∀ x ∈ c :: w, jsWhitespace x = false) →
        ¬ c = '"' → ¬ c = squote →
        (rest = [] ∨ ∃ d ds, rest = d :: ds ∧ jsWhitespace d = true) →
        tokenizeAux ((c :: w) ++ rest) = String.mk (c :: w) :: tokenizeAux rest) :=
  ⟨tokenize_empty, tokenize_commit_example,
   fun _ _ h => tokenizeAux_ws h,
   fun _ _ h => tokenizeAux_quoted_run h,
   fun _ _ h => tokenizeAux_squoted_run h,
   fun _ _ _ hw hd hs hr => tokenizeAux_bare_run hw hd hs hr⟩

theorem tokenize_spec_witness :
    tokenizeAux ('"' :: (['o', 'k'] ++ '"' :: [])) = ["ok"] := by
  rw [tokenize_spec.2.2.2.1 ['o', 'k'] [] (by decide), tokenizeAux_nil]

/-- C10 counterexample: an input line with an unmatched quote does not
tokenize to the empty sequence — `tokenize "\"abc"` yields the bare token
`"\"abc"`, quote included. -/
theorem tokenize_unmatched_counterexample :
    tokenize (String.mk ('"' :: "abc".data)) ≠ [] := by
  rw [tokenize_dq_unmatched_example]
  decide

/-- C10 (amended): the empty input tokenizes to the empty sequence, but a line
with an unmatched quote does not: the unmatched quote is treated as an
ordinary non-whitespace character, so its maximal run becomes one bare token
with the quote included (for either quote style); double- and single-quoted
runs in the same line are handled independently of each other, each quote
style passing verbatim through a token delimited by the other. -/
theorem tokenize_unmatched_spec :
    tokenize "" = []
    ∧ tokenize (String.mk ('"' :: "abc".data)) = [String.mk ('"' :: "abc".data)]
    ∧ tokenize (String.mk (squote :: "abc".data)) = [String.mk (squote :: "abc".data)]
    ∧ tokenize (String.mk
        ('"' :: 'a' :: squote :: 'b' :: '"' :: ' ' :: squote :: 'c' :: '"' :: 'd' :: squote :: []))
      = [String.mk ['a', squote, 'b'], String.mk ['c', '"', 'd']] :=
  ⟨tokenize_empty, tokenize_dq_unmatched_example, tokenize_sq_unmatched_example,
   tokenize_mixed_quotes_example⟩

end CelebrateFailure
